import Mathlib

/-!
Verification of the OMAP mailbox driver core
(arch/arm/plat-omap/mailbox.c).

A shallow embedding of the driver's data model and operations:

* a software queue (`Kfifo`) modelling the kernel kfifo holding whole
  fixed-size messages (`mbox_msg_t` is one machine word, 4 bytes);
* a hardware FIFO (`HwFifo`) behind the hardware-operations callbacks
  (`fifo_read`/`fifo_write`/`fifo_empty`/`fifo_full`);
* the transmit path (`omap_mbox_msg_send`, `mbox_tx_tasklet`,
  `__mbox_poll_for_space`);
* the receive path (`__mbox_rx_interrupt`, `mbox_rx_work`);
* the channel lifecycle (`omap_mbox_startup`, `omap_mbox_fini`,
  `omap_mbox_get`) with the process-wide `mbox_configured` counter;
* the runtime-PM context hooks (`omap_mbox_save_ctx`,
  `omap_mbox_restore_ctx`) iterated by `device_for_each_child`.

Stateful C code becomes explicit state passing; hardware state is a value
threaded through each operation; error codes keep their Linux values
(`-ENOMEM = -12`, `-EINVAL = -22`, `-ENOENT = -2`, `-ENODEV = -19`).
The `struct omap_mbox` field layout is taken from its uses in mailbox.c
(the header `plat/mailbox.h` is not part of this tree).
-/

set_option autoImplicit false

namespace OmapMailbox

/-- One mailbox message: `mbox_msg_t` is one machine word. -/
abbrev MboxMsg := Nat

/-- Model of `sizeof(mbox_msg_t)` in bytes. -/
def msgSize : Nat := 4

/-- Hardware variant tag: `OMAP_MBOX_TYPE1` / `OMAP_MBOX_TYPE2`. -/
inductive MboxType where
  | type1
  | type2
  deriving DecidableEq, Repr

/-- Software queue: a kernel kfifo of `capacity` bytes holding whole
messages (the driver only ever transfers whole `mbox_msg_t` words). -/
structure Kfifo where
  capacity : Nat
  msgs : List MboxMsg
  deriving DecidableEq, Repr

/-- Model of `kfifo_len`: occupied bytes. -/
def kfifo_len (f : Kfifo) : Nat := msgSize * f.msgs.length

/-- Model of `kfifo_avail`: free bytes. -/
def kfifo_avail (f : Kfifo) : Nat := f.capacity - kfifo_len f

/-- Model of `kfifo_is_empty`. -/
def kfifo_is_empty (f : Kfifo) : Bool := f.msgs.isEmpty

/-- Model of `kfifo_in` for one whole message: copies the message iff a whole
message fits, returning the number of bytes copied.  (All call sites in
mailbox.c check for space first, so partial byte copies never occur.) -/
def kfifo_in (f : Kfifo) (m : MboxMsg) : Kfifo × Nat :=
  if msgSize ≤ kfifo_avail f then ({ f with msgs := f.msgs ++ [m] }, msgSize)
  else (f, 0)

/-- Model of `kfifo_out` for one whole message: pops the oldest message if one is
present, returning the bytes copied and the message. -/
def kfifo_out (f : Kfifo) : Kfifo × Nat × MboxMsg :=
  match f.msgs with
  | [] => (f, 0, 0)
  | m :: rest => ({ f with msgs := rest }, msgSize, m)

/-- The hardware message FIFO behind the `fifo_read`/`fifo_write`/
`fifo_empty`/`fifo_full` callbacks: `depth` slots, oldest first. -/
structure HwFifo where
  depth : Nat
  msgs : List MboxMsg
  deriving DecidableEq, Repr

/-- Model of `mbox_fifo_full`: hardware FIFO has no free slot. -/
def mbox_fifo_full (h : HwFifo) : Bool := decide (h.depth ≤ h.msgs.length)

/-- Model of `mbox_fifo_empty`. -/
def mbox_fifo_empty (h : HwFifo) : Bool := h.msgs.isEmpty

/-- Model of `mbox_fifo_write`. -/
def mbox_fifo_write (h : HwFifo) (m : MboxMsg) : HwFifo :=
  { h with msgs := h.msgs ++ [m] }

/-- Model of `mbox_fifo_read`. -/
def mbox_fifo_read (h : HwFifo) : HwFifo × MboxMsg :=
  match h.msgs with
  | [] => (h, 0)
  | m :: rest => ({ h with msgs := rest }, m)

/-- Loop body of `__mbox_poll_for_space`, with the remaining retry budget
`i` explicit.  The hardware full bit is sampled from a hardware state that
does not change during the (sequentially modelled) poll, so it is a fixed
`full` here.  `while (mbox_fifo_full(mbox))`: a TYPE2 mailbox gives up at
once, a TYPE1 mailbox retries with `udelay(1)` until the budget runs out. -/
def pollGo (ty : MboxType) (full : Bool) : Nat → Int
  | 0 => if full then -1 else 0
  | i + 1 =>
    if full then
      if ty = MboxType.type2 then -1
      else if i = 0 then -1
      else pollGo ty full i
    else 0

/-- Model of `__mbox_poll_for_space`: bounded non-blocking poll for hardware FIFO
space, with the source's retry budget of 1000. -/
def __mbox_poll_for_space (ty : MboxType) (hw : HwFifo) : Int :=
  pollGo ty (mbox_fifo_full hw) 1000

/-- Against an unchanging hardware state, the bounded poll succeeds
exactly when the hardware FIFO is not full, for both hardware variants. -/
theorem pollGo_eq (ty : MboxType) (full : Bool) (n : Nat) :
    pollGo ty full n = if full then -1 else 0 := by
  induction n with
  | zero => rfl
  | succ k ih =>
    cases full with
    | false => simp [pollGo]
    | true =>
      cases ty with
      | type2 => simp [pollGo]
      | type1 =>
        cases k with
        | zero => simp [pollGo]
        | succ j => simpa [pollGo] using ih

/-- Model of `__mbox_poll_for_space` succeeds iff the hardware FIFO is not full. -/
theorem poll_for_space_eq (ty : MboxType) (hw : HwFifo) :
    __mbox_poll_for_space ty hw = if mbox_fifo_full hw then -1 else 0 :=
  pollGo_eq ty (mbox_fifo_full hw) 1000

/-- Result of one `omap_mbox_msg_send` call: the updated software transmit
queue and hardware FIFO, the return value, the number of software-queue
enqueue (`kfifo_in`) operations performed, and whether the deferred
transmit tasklet was scheduled. -/
structure SendResult where
  txq : Kfifo
  hw : HwFifo
  ret : Int
  enqueueCalls : Nat
  taskletScheduled : Bool
  deriving DecidableEq, Repr

/-- Model of `omap_mbox_msg_send`: admission into the transmit path.
Under the txq lock: fail with `-ENOMEM` if no room for one message;
else if the software queue is empty and the bounded poll finds hardware
space, write directly to hardware; else enqueue and schedule the deferred
transmit tasklet. -/
def omap_mbox_msg_send (ty : MboxType) (txq : Kfifo) (hw : HwFifo)
    (msg : MboxMsg) : SendResult :=
  if kfifo_avail txq < msgSize then
    ⟨txq, hw, -12, 0, false⟩
  else if kfifo_is_empty txq = true ∧ __mbox_poll_for_space ty hw = 0 then
    ⟨txq, mbox_fifo_write hw msg, 0, 0, false⟩
  else
    ⟨(kfifo_in txq msg).1, hw, 0, 1, true⟩

/-- C3: `send` returns `QueueFull` (`-ENOMEM`) exactly when the transmit
software queue has free space for less than one message; in that case the
software queue and the hardware FIFO are unchanged and nothing is
enqueued or scheduled; in every other case `send` returns `Ok` (0). -/
theorem send_queue_full_iff (ty : MboxType) (txq : Kfifo) (hw : HwFifo)
    (msg : MboxMsg) :
    ((omap_mbox_msg_send ty txq hw msg).ret = -12 ↔ kfifo_avail txq < msgSize) ∧
    (kfifo_avail txq < msgSize →
      (omap_mbox_msg_send ty txq hw msg).txq = txq ∧
      (omap_mbox_msg_send ty txq hw msg).hw = hw ∧
      (omap_mbox_msg_send ty txq hw msg).enqueueCalls = 0 ∧
      (omap_mbox_msg_send ty txq hw msg).taskletScheduled = false) ∧
    (¬ kfifo_avail txq < msgSize → (omap_mbox_msg_send ty txq hw msg).ret = 0) := by
  unfold omap_mbox_msg_send
  by_cases h : kfifo_avail txq < msgSize
  · simp [h]
  · by_cases h2 : kfifo_is_empty txq = true ∧ __mbox_poll_for_space ty hw = 0
    · simp [h, h2]
    · simp [h, h2]

/-- Witness for `send_queue_full_iff` at a concrete full queue. -/
theorem send_queue_full_iff_witness :
    (omap_mbox_msg_send MboxType.type1 ⟨4, [7]⟩ ⟨1, []⟩ 9).txq = ⟨4, [7]⟩ ∧
    (omap_mbox_msg_send MboxType.type1 ⟨4, [7]⟩ ⟨1, []⟩ 9).hw = ⟨1, []⟩ ∧
    (omap_mbox_msg_send MboxType.type1 ⟨4, [7]⟩ ⟨1, []⟩ 9).enqueueCalls = 0 ∧
    (omap_mbox_msg_send MboxType.type1 ⟨4, [7]⟩ ⟨1, []⟩ 9).taskletScheduled = false :=
  (send_queue_full_iff MboxType.type1 ⟨4, [7]⟩ ⟨1, []⟩ 9).2.1 (by decide)

/-- C4: a send on a channel whose transmit software queue is empty and
whose bounded poll for hardware space succeeds writes the message directly
to the hardware FIFO and returns `Ok`, performing zero software-queue
enqueue operations and scheduling no deferred transmit task.  The
hypothesis `msgSize ≤ txq.capacity` is the module-init invariant
(`mbox_kfifo_size` is rounded up to at least one message). -/
theorem send_fast_path_direct_write (ty : MboxType) (txq : Kfifo)
    (hw : HwFifo) (msg : MboxMsg)
    (hcap : msgSize ≤ txq.capacity)
    (hempty : kfifo_is_empty txq = true)
    (hpoll : __mbox_poll_for_space ty hw = 0) :
    omap_mbox_msg_send ty txq hw msg = ⟨txq, mbox_fifo_write hw msg, 0, 0, false⟩ := by
  have hmsgs : txq.msgs = [] := by
    simpa [kfifo_is_empty] using hempty
  have hav : ¬ kfifo_avail txq < msgSize := by
    simp only [kfifo_avail, kfifo_len, hmsgs, List.length_nil, Nat.mul_zero,
      Nat.sub_zero]
    omega
  unfold omap_mbox_msg_send
  simp [hav, hempty, hpoll]

/-- Witness for `send_fast_path_direct_write` at a concrete idle channel. -/
theorem send_fast_path_direct_write_witness :
    omap_mbox_msg_send MboxType.type1 ⟨16, []⟩ ⟨4, [1]⟩ 7 =
      ⟨⟨16, []⟩, mbox_fifo_write ⟨4, [1]⟩ 7, 0, 0, false⟩ :=
  send_fast_path_direct_write MboxType.type1 ⟨16, []⟩ ⟨4, [1]⟩ 7
    (by decide) (by decide) (by decide)

/-- Result of one `mbox_tx_tasklet` run. -/
structure TxTaskletResult where
  txq : Kfifo
  hw : HwFifo
  txIrqEnabled : Bool
  deriving DecidableEq, Repr

/-- Loop of `mbox_tx_tasklet`: while the software queue is non-empty, poll
for hardware space; on poll failure enable the TX-ready interrupt and
stop, otherwise `kfifo_out` one message and `mbox_fifo_write` it. -/
def txDrain (ty : MboxType) (cap : Nat) :
    List MboxMsg → HwFifo → Bool → TxTaskletResult
  | [], hw, irq => ⟨⟨cap, []⟩, hw, irq⟩
  | m :: rest, hw, irq =>
    if __mbox_poll_for_space ty hw = 0 then
      txDrain ty cap rest (mbox_fifo_write hw m) irq
    else
      ⟨⟨cap, m :: rest⟩, hw, true⟩

/-- Model of `mbox_tx_tasklet`: one run of the deferred transmit task, taking the
TX-ready interrupt-enable line state as an explicit input. -/
def mbox_tx_tasklet (ty : MboxType) (txq : Kfifo) (hw : HwFifo)
    (txIrq : Bool) : TxTaskletResult :=
  txDrain ty txq.capacity txq.msgs hw txIrq

theorem txDrain_spec (ty : MboxType) (cap : Nat) :
    ∀ (msgs : List MboxMsg) (hw : HwFifo) (irq : Bool),
    ∃ k, k ≤ msgs.length ∧
      (txDrain ty cap msgs hw irq).hw = { hw with msgs := hw.msgs ++ msgs.take k } ∧
      (txDrain ty cap msgs hw irq).txq = ⟨cap, msgs.drop k⟩ ∧
      ((txDrain ty cap msgs hw irq).txq.msgs.isEmpty = true ∧
         (txDrain ty cap msgs hw irq).txIrqEnabled = irq ∨
       (txDrain ty cap msgs hw irq).txq.msgs.isEmpty = false ∧
         mbox_fifo_full (txDrain ty cap msgs hw irq).hw = true ∧
         (txDrain ty cap msgs hw irq).txIrqEnabled = true)
  | [], hw, irq => by
    refine ⟨0, by simp, ?_, by simp [txDrain], ?_⟩
    · simp [txDrain]
    · left
      simp [txDrain]
  | m :: rest, hw, irq => by
    by_cases hp : __mbox_poll_for_space ty hw = 0
    · obtain ⟨k, hk, hhw, htx, hlast⟩ :=
        txDrain_spec ty cap rest (mbox_fifo_write hw m) irq
      refine ⟨k + 1, by simpa using Nat.succ_le_succ hk, ?_, ?_, ?_⟩
      · simp only [txDrain, hp, if_pos]
        rw [hhw]
        simp [mbox_fifo_write]
      · simp only [txDrain, hp, if_pos]
        simpa using htx
      · simp only [txDrain, hp, if_pos]
        exact hlast
    · have hfull : mbox_fifo_full hw = true := by
        rcases Bool.eq_false_or_eq_true (mbox_fifo_full hw) with h | h
        · exact h
        · exact absurd (by simp [poll_for_space_eq, h]) hp
      refine ⟨0, by simp, ?_, ?_, ?_⟩
      · simp [txDrain, hp]
      · simp [txDrain, hp]
      · right
        simp [txDrain, hp, hfull]

/-- C7: a run of the deferred transmit task writes some prefix of the
software transmit queue to the hardware FIFO in order, one message per
successful poll; it either drains the queue to empty (leaving the
TX-ready interrupt line as it was), or stops with the hardware FIFO full,
the remaining messages still queued, and the TX-ready interrupt enabled. -/
theorem tx_tasklet_drain (ty : MboxType) (txq : Kfifo) (hw : HwFifo)
    (irq : Bool) :
    ∃ k, k ≤ txq.msgs.length ∧
      (mbox_tx_tasklet ty txq hw irq).hw =
        { hw with msgs := hw.msgs ++ txq.msgs.take k } ∧
      (mbox_tx_tasklet ty txq hw irq).txq = ⟨txq.capacity, txq.msgs.drop k⟩ ∧
      ((mbox_tx_tasklet ty txq hw irq).txq.msgs.isEmpty = true ∧
         (mbox_tx_tasklet ty txq hw irq).txIrqEnabled = irq ∨
       (mbox_tx_tasklet ty txq hw irq).txq.msgs.isEmpty = false ∧
         mbox_fifo_full (mbox_tx_tasklet ty txq hw irq).hw = true ∧
         (mbox_tx_tasklet ty txq hw irq).txIrqEnabled = true) :=
  txDrain_spec ty txq.capacity txq.msgs hw irq

/-- Result of one `__mbox_rx_interrupt` run: remaining hardware FIFO
contents, updated software receive queue, the queue's `full` flag, the
RX-ready interrupt-enable line, whether the RX condition was acknowledged,
whether the deferred receive work was scheduled, the number of hardware
reads, and whether the queue-full (`nomem`) path was taken. -/
structure RxIrqResult where
  hwMsgs : List MboxMsg
  rxq : Kfifo
  full : Bool
  rxIrqEnabled : Bool
  acked : Bool
  workScheduled : Bool
  reads : Nat
  nomem : Bool
  deriving DecidableEq, Repr

/-- Loop of `__mbox_rx_interrupt`: while the hardware FIFO is non-empty,
stop on a full software queue (disable RX irq, set `full`, skip the ack,
still schedule the work); otherwise read one message and enqueue it,
breaking after one message on TYPE1 hardware.  On loop exit the RX
condition is acknowledged and the work scheduled. -/
def rxLoop (ty : MboxType) :
    List MboxMsg → Kfifo → Bool → Bool → Nat → RxIrqResult
  | [], q, fl, irq, reads => ⟨[], q, fl, irq, true, true, reads, false⟩
  | m :: rest, q, fl, irq, reads =>
    if kfifo_avail q < msgSize then
      ⟨m :: rest, q, true, false, false, true, reads, true⟩
    else
      let q2 := (kfifo_in q m).1
      if ty = MboxType.type1 then
        ⟨rest, q2, fl, irq, true, true, reads + 1, false⟩
      else
        rxLoop ty rest q2 fl irq (reads + 1)

/-- Model of `__mbox_rx_interrupt`, on the RX-pending hardware state `hw`. -/
def __mbox_rx_interrupt (ty : MboxType) (hw : HwFifo) (rxq : Kfifo)
    (fl irq : Bool) : RxIrqResult :=
  rxLoop ty hw.msgs rxq fl irq 0

theorem rxLoop_spec (ty : MboxType) :
    ∀ (msgs : List MboxMsg) (q : Kfifo) (fl irq : Bool) (n : Nat),
    ∃ k, k ≤ msgs.length ∧
      (rxLoop ty msgs q fl irq n).rxq.capacity = q.capacity ∧
      (rxLoop ty msgs q fl irq n).rxq.msgs = q.msgs ++ msgs.take k ∧
      (rxLoop ty msgs q fl irq n).hwMsgs = msgs.drop k ∧
      (rxLoop ty msgs q fl irq n).reads = n + k ∧
      (rxLoop ty msgs q fl irq n).workScheduled = true ∧
      ((rxLoop ty msgs q fl irq n).nomem = false →
        (rxLoop ty msgs q fl irq n).acked = true ∧
        (rxLoop ty msgs q fl irq n).full = fl ∧
        (rxLoop ty msgs q fl irq n).rxIrqEnabled = irq) ∧
      ((rxLoop ty msgs q fl irq n).nomem = true →
        (rxLoop ty msgs q fl irq n).acked = false ∧
        (rxLoop ty msgs q fl irq n).full = true ∧
        (rxLoop ty msgs q fl irq n).rxIrqEnabled = false) ∧
      (msgSize ≤ kfifo_avail q → msgs ≠ [] → 1 ≤ k)
  | [], q, fl, irq, n => by
    exact ⟨0, by simp, by simp [rxLoop], by simp [rxLoop], by simp [rxLoop],
      by simp [rxLoop], by simp [rxLoop], by simp [rxLoop],
      by simp [rxLoop], by simp⟩
  | m :: rest, q, fl, irq, n => by
    by_cases hav : kfifo_avail q < msgSize
    · refine ⟨0, by simp, ?_⟩
      simp [rxLoop, hav]
    · have hin : (kfifo_in q m).1 = { q with msgs := q.msgs ++ [m] } := by
        simp [kfifo_in, Nat.not_lt.mp hav]
      by_cases hty : ty = MboxType.type1
      · refine ⟨1, by simp, ?_⟩
        simp [rxLoop, hav, hty, hin]
      · obtain ⟨k, hk, hcap, hq, hhw, hr, hw2, hnf, hnt, _⟩ :=
          rxLoop_spec ty rest ((kfifo_in q m).1) fl irq (n + 1)
        refine ⟨k + 1, by simpa using Nat.succ_le_succ hk, ?_, ?_, ?_, ?_, ?_, ?_, ?_, ?_⟩
        · simp only [rxLoop, hav, if_neg, hty, if_false]
          rw [hcap, hin]
        · simp only [rxLoop, hav, if_neg, hty, if_false]
          rw [hq, hin]
          simp
        · simp only [rxLoop, hav, if_neg, hty, if_false]
          rw [hhw]
          simp
        · simp only [rxLoop, hav, if_neg, hty, if_false]
          rw [hr]
          omega
        · simp only [rxLoop, hav, if_neg, hty, if_false]
          exact hw2
        · simp only [rxLoop, hav, if_neg, hty, if_false]
          exact hnf
        · simp only [rxLoop, hav, if_neg, hty, if_false]
          exact hnt
        · intro _ _
          omega

/-- C5: when the RX-ready handler runs with a message pending in hardware:
if the software receive queue lacks space for one message it disables the
RX-ready interrupt, sets the `full` flag, reads nothing from hardware,
does not acknowledge the condition, and still schedules the deferred
receive work; otherwise it reads at least one message from hardware into
the software queue in order, schedules the work, and acknowledges the
condition exactly when the queue-full path was not taken during the
drain. -/
theorem rx_interrupt_backpressure (ty : MboxType) (hw : HwFifo)
    (rxq : Kfifo) (fl irq : Bool) (hne : hw.msgs ≠ []) :
    (kfifo_avail rxq < msgSize →
      __mbox_rx_interrupt ty hw rxq fl irq =
        ⟨hw.msgs, rxq, true, false, false, true, 0, true⟩) ∧
    (msgSize ≤ kfifo_avail rxq →
      ∃ k, 1 ≤ k ∧ k ≤ hw.msgs.length ∧
        (__mbox_rx_interrupt ty hw rxq fl irq).rxq.msgs =
          rxq.msgs ++ hw.msgs.take k ∧
        (__mbox_rx_interrupt ty hw rxq fl irq).hwMsgs = hw.msgs.drop k ∧
        (__mbox_rx_interrupt ty hw rxq fl irq).reads = k ∧
        (__mbox_rx_interrupt ty hw rxq fl irq).workScheduled = true ∧
        ((__mbox_rx_interrupt ty hw rxq fl irq).nomem = false →
          (__mbox_rx_interrupt ty hw rxq fl irq).acked = true) ∧
        ((__mbox_rx_interrupt ty hw rxq fl irq).nomem = true →
          (__mbox_rx_interrupt ty hw rxq fl irq).acked = false ∧
          (__mbox_rx_interrupt ty hw rxq fl irq).full = true ∧
          (__mbox_rx_interrupt ty hw rxq fl irq).rxIrqEnabled = false)) := by
  constructor
  · intro hav
    obtain ⟨m, rest, hm⟩ := List.exists_cons_of_ne_nil hne
    unfold __mbox_rx_interrupt
    rw [hm]
    simp [rxLoop, hav]
  · intro hav
    obtain ⟨k, hk, _, hq, hhw, hr, hw2, hnf, hnt, hone⟩ :=
      rxLoop_spec ty hw.msgs rxq fl irq 0
    exact ⟨k, hone hav hne, hk, hq, hhw, by simpa using hr, hw2,
      fun h => (hnf h).1, hnt⟩

/-- Witness for `rx_interrupt_backpressure`: a full software queue on a
pending message leaves everything latched and unacknowledged. -/
theorem rx_interrupt_backpressure_witness :
    __mbox_rx_interrupt MboxType.type2 ⟨4, [5]⟩ ⟨4, [1]⟩ false true =
      ⟨[5], ⟨4, [1]⟩, true, false, false, true, 0, true⟩ :=
  (rx_interrupt_backpressure MboxType.type2 ⟨4, [5]⟩ ⟨4, [1]⟩ false true
    (by decide)).1 (by decide)

/-- Model of `blocking_notifier_call_chain`: deliver `m` to every registered
observer (notifier block), in registration order.  Observers are
identified by a number; the delivery log records (observer, message)
pairs in invocation order. -/
def notifier_call_chain (obs : List Nat) (m : MboxMsg) : List (Nat × MboxMsg) :=
  obs.map fun o => (o, m)

/-- Result of one `mbox_rx_work` run. -/
structure RxWorkResult where
  rxq : Kfifo
  full : Bool
  rxIrqEnabled : Bool
  delivered : List (Nat × MboxMsg)
  deriving DecidableEq, Repr

/-- Loop of `mbox_rx_work`: while the software receive queue holds at
least one whole message (`kfifo_len ≥ sizeof(msg)`), `kfifo_out` it,
dispatch it through the notifier chain, then under the queue lock clear a
set `full` flag and re-enable the RX-ready interrupt. -/
def rxWorkLoop (obs : List Nat) (cap : Nat) :
    List MboxMsg → Bool → Bool → RxWorkResult
  | [], fl, irq => ⟨⟨cap, []⟩, fl, irq, []⟩
  | m :: rest, fl, irq =>
    let r := if fl then rxWorkLoop obs cap rest false true
             else rxWorkLoop obs cap rest fl irq
    ⟨r.rxq, r.full, r.rxIrqEnabled, notifier_call_chain obs m ++ r.delivered⟩

/-- Model of `mbox_rx_work`: one run of the deferred receive task. -/
def mbox_rx_work (obs : List Nat) (rxq : Kfifo) (fl irq : Bool) :
    RxWorkResult :=
  rxWorkLoop obs rxq.capacity rxq.msgs fl irq

theorem rxWorkLoop_eq (obs : List Nat) (cap : Nat) :
    ∀ (msgs : List MboxMsg) (fl irq : Bool),
    rxWorkLoop obs cap msgs fl irq =
      ⟨⟨cap, []⟩, (if msgs.isEmpty then fl else false),
       (if fl && !msgs.isEmpty then true else irq),
       msgs.flatMap (notifier_call_chain obs)⟩
  | [], fl, irq => by simp [rxWorkLoop]
  | m :: rest, fl, irq => by
    cases fl with
    | false =>
      simp only [rxWorkLoop, Bool.false_and, if_false, Bool.if_false_left]
      rw [rxWorkLoop_eq obs cap rest false irq]
      simp
    | true =>
      simp only [rxWorkLoop, if_true, Bool.true_and]
      rw [rxWorkLoop_eq obs cap rest false true]
      simp

/-- C6: a run of the deferred receive task drains the software receive
queue completely (it terminates with the queue holding less than one full
message), dispatches every dequeued message to every registered observer
in registration order, and — when the `full` flag was set and at least one
message was pending — clears the flag and re-enables the RX-ready
interrupt; when the flag was clear, the interrupt line is untouched. -/
theorem rx_work_drain_dispatch (obs : List Nat) (rxq : Kfifo)
    (fl irq : Bool) :
    (mbox_rx_work obs rxq fl irq).rxq.msgs = [] ∧
    kfifo_len (mbox_rx_work obs rxq fl irq).rxq < msgSize ∧
    (mbox_rx_work obs rxq fl irq).delivered =
      rxq.msgs.flatMap (notifier_call_chain obs) ∧
    (rxq.msgs ≠ [] → fl = true →
      (mbox_rx_work obs rxq fl irq).full = false ∧
      (mbox_rx_work obs rxq fl irq).rxIrqEnabled = true) ∧
    (fl = false →
      (mbox_rx_work obs rxq fl irq).full = false ∧
      (mbox_rx_work obs rxq fl irq).rxIrqEnabled = irq) := by
  unfold mbox_rx_work
  rw [rxWorkLoop_eq obs rxq.capacity rxq.msgs fl irq]
  refine ⟨rfl, by simp [kfifo_len, msgSize], rfl, ?_, ?_⟩
  · intro hne hfl
    have : rxq.msgs.isEmpty = false := by
      simpa [List.isEmpty_iff] using hne
    simp [this, hfl]
  · intro hfl
    subst hfl
    cases h : rxq.msgs.isEmpty <;> simp [h]

/-- Witness for `rx_work_drain_dispatch`: two buffered messages, flag set,
two observers. -/
theorem rx_work_drain_dispatch_witness :
    (mbox_rx_work [10, 11] ⟨8, [5, 6]⟩ true false).full = false ∧
    (mbox_rx_work [10, 11] ⟨8, [5, 6]⟩ true false).rxIrqEnabled = true :=
  (rx_work_drain_dispatch [10, 11] ⟨8, [5, 6]⟩ true false).2.2.2.1
    (by decide) rfl

/-- The hardware-operations capability of a channel, as used by
mailbox.c: presence of the optional callbacks, the value the `startup`
callback returns when invoked, and the variant tag. -/
structure MboxOps where
  has_startup : Bool
  startup_ret : Int
  has_shutdown : Bool
  has_save_ctx : Bool
  has_restore_ctx : Bool
  ty : MboxType
  deriving DecidableEq, Repr

/-- One channel (`struct omap_mbox`), with the fields mailbox.c uses:
name, ops, `use_count`, and the two software queues (allocated on first
open).  The struct itself is declared in the absent `plat/mailbox.h`;
its fields are reconstructed from their uses in mailbox.c. -/
structure MboxCh where
  name : String
  ops : MboxOps
  use_count : Nat
  txq : Option Kfifo
  rxq : Option Kfifo
  deriving DecidableEq, Repr

/-- The module-global state: the process-wide activation counter
`mbox_configured` (a C `int`, so modelled as `Int`), and observation
counters for the `startup`/`shutdown` callbacks and the power-domain
reference (`omap_mbox_enable` = `pm_runtime_get_sync`,
`omap_mbox_disable` = `pm_runtime_put_sync`). -/
structure GlobalState where
  mbox_configured : Int
  startupCalls : Nat
  shutdownCalls : Nat
  enableCalls : Nat
  disableCalls : Nat
  deriving DecidableEq, Repr

/-- The common tail of the `fail_alloc_txq`/`fail_alloc_rxq`/
`fail_request_irq` paths of `omap_mbox_startup`: call `ops->shutdown` if
present, then (after `use_count--`) fall through `fail_startup` to
`omap_mbox_disable`. -/
def failPathG (g : GlobalState) (m : MboxCh) : GlobalState :=
  let g2 := if m.ops.has_shutdown = true
            then { g with shutdownCalls := g.shutdownCalls + 1 } else g
  { g2 with disableCalls := g2.disableCalls + 1 }

/-- Model of `omap_mbox_startup`: under `mbox_configured_lock`, take a power-domain
reference, increment the process-wide `mbox_configured` counter, run the
one-time hardware startup on the 0→1 transition, and on a channel's first
open allocate its two queues and install the interrupt handler.

Allocation and `request_irq` success are the explicit inputs `allocTx`,
`allocRx`, `irqOk`; `cap` is `mbox_kfifo_size`.  On the failure paths the
`use_count++` ... `use_count--` pair cancels, so `use_count` is written
back unchanged.  Faithful to the source, the failure paths do NOT
decrement `mbox_configured`, and the missing-startup-callback path
returns the never-assigned `ret = 0`. -/
def omap_mbox_startup (cap : Nat) (allocTx allocRx irqOk : Bool)
    (g : GlobalState) (m : MboxCh) : GlobalState × MboxCh × Int :=
  let g2 : GlobalState :=
    { g with enableCalls := g.enableCalls + 1,
             mbox_configured := g.mbox_configured + 1 }
  if g.mbox_configured = 0 ∧ m.ops.has_startup = false then
    ({ g2 with disableCalls := g2.disableCalls + 1 }, m, 0)
  else if g.mbox_configured = 0 ∧ m.ops.startup_ret ≠ 0 then
    ({ g2 with startupCalls := g2.startupCalls + 1,
               disableCalls := g2.disableCalls + 1 }, m, m.ops.startup_ret)
  else
    let g3 : GlobalState :=
      if g.mbox_configured = 0
      then { g2 with startupCalls := g2.startupCalls + 1 } else g2
    if m.use_count ≠ 0 then
      (g3, { m with use_count := m.use_count + 1 }, 0)
    else if allocTx = false then
      (failPathG g3 m, m, -12)
    else if allocRx = false then
      (failPathG g3 m, { m with txq := none }, -12)
    else if irqOk = false then
      (failPathG g3 m, { m with txq := none, rxq := none }, -16)
    else
      (g3, { m with use_count := m.use_count + 1,
                    txq := some ⟨cap, []⟩, rxq := some ⟨cap, []⟩ }, 0)

/-- Model of `omap_mbox_fini`: under `mbox_configured_lock`, flush receive work,
decrement `use_count` and free both queues when it reaches zero, then —
only if `ops->shutdown` is present — decrement `mbox_configured` and run
the one-time shutdown when it reaches zero, and drop the power-domain
reference. -/
def omap_mbox_fini (g : GlobalState) (m : MboxCh) : GlobalState × MboxCh :=
  let m1 : MboxCh := { m with use_count := m.use_count - 1 }
  let m2 : MboxCh :=
    if m1.use_count = 0 then { m1 with txq := none, rxq := none } else m1
  let g1 : GlobalState :=
    if m.ops.has_shutdown = true then
      if g.mbox_configured - 1 = 0 then
        { g with mbox_configured := g.mbox_configured - 1,
                 shutdownCalls := g.shutdownCalls + 1 }
      else { g with mbox_configured := g.mbox_configured - 1 }
    else g
  ({ g1 with disableCalls := g1.disableCalls + 1 }, m2)

/-- Return value of `omap_mbox_get`: `ERR_PTR(e)` or the channel. -/
inductive GetResult where
  | err (e : Int)
  | ok (m : MboxCh)
  deriving DecidableEq, Repr

/-- Model of `omap_mbox_get`: `-EINVAL` on a null registry, linear name lookup
(`-ENOENT` when absent), `omap_mbox_startup`, mapping a non-zero startup
return to `-ENODEV`, then optional notifier registration (`nb`).  The
third component records whether the observer was registered. -/
def omap_mbox_get (cap : Nat) (allocTx allocRx irqOk : Bool)
    (mboxes : Option (List MboxCh)) (g : GlobalState) (name : String)
    (nb : Bool) : GetResult × GlobalState × Bool :=
  match mboxes with
  | none => (GetResult.err (-22), g, false)
  | some l =>
    match l.find? (fun m => m.name == name) with
    | none => (GetResult.err (-2), g, false)
    | some m =>
      let r := omap_mbox_startup cap allocTx allocRx irqOk g m
      if r.2.2 ≠ 0 then (GetResult.err (-19), r.1, false)
      else (GetResult.ok r.2.1, r.1, nb)

/-- Model of `omap_mbox_unregister`: clears the registry pointer (`mboxes = NULL`),
returning `-EINVAL` if it was already null. -/
def omap_mbox_unregister (mboxes : Option (List MboxCh)) :
    Option (List MboxCh) × Int :=
  match mboxes with
  | none => (none, -22)
  | some _ => (none, 0)

/-- System state for lifecycle traces: the module globals plus the
channels, indexed by `Nat`. -/
structure Sys where
  g : GlobalState
  chans : Nat → MboxCh

/-- A lifecycle event: open (`omap_mbox_get` reaching startup) or close
(`omap_mbox_put`/`omap_mbox_fini`) of channel `i`. -/
inductive LifeEv where
  | opn (i : Nat)
  | cls (i : Nat)

/-- One lifecycle step (allocations and `request_irq` succeed). -/
def lifeStep (cap : Nat) (s : Sys) : LifeEv → Sys
  | LifeEv.opn i =>
    let r := omap_mbox_startup cap true true true s.g (s.chans i)
    ⟨r.1, Function.update s.chans i r.2.1⟩
  | LifeEv.cls i =>
    let r := omap_mbox_fini s.g (s.chans i)
    ⟨r.1, Function.update s.chans i r.2⟩

/-- Run a list of lifecycle events. -/
def lifeRun (cap : Nat) (s : Sys) (es : List LifeEv) : Sys :=
  es.foldl (lifeStep cap) s

/-- A hardware-operations set whose startup succeeds and whose shutdown
exists — the premise of the success-path lifecycle claims. -/
def goodOps (o : MboxOps) : Prop :=
  o.has_startup = true ∧ o.startup_ret = 0 ∧ o.has_shutdown = true

theorem startup_good (cap : Nat) (g : GlobalState) (m : MboxCh)
    (h1 : m.ops.has_startup = true) (h2 : m.ops.startup_ret = 0) :
    (omap_mbox_startup cap true true true g m).1 =
      { g with enableCalls := g.enableCalls + 1,
               mbox_configured := g.mbox_configured + 1,
               startupCalls :=
                 g.startupCalls + (if g.mbox_configured = 0 then 1 else 0) } ∧
    (omap_mbox_startup cap true true true g m).2.1.ops = m.ops ∧
    (omap_mbox_startup cap true true true g m).2.2 = 0 := by
  unfold omap_mbox_startup
  have hns : ¬ (g.mbox_configured = 0 ∧ m.ops.has_startup = false) := by
    simp [h1]
  have hnr : ¬ (g.mbox_configured = 0 ∧ m.ops.startup_ret ≠ 0) := by
    simp [h2]
  by_cases hc : g.mbox_configured = 0 <;>
    by_cases hu : m.use_count ≠ 0 <;>
      simp [hns, hnr, hc, hu, h1, h2]

theorem fini_good (g : GlobalState) (m : MboxCh)
    (h : m.ops.has_shutdown = true) :
    (omap_mbox_fini g m).1 =
      { g with mbox_configured := g.mbox_configured - 1,
               shutdownCalls :=
                 g.shutdownCalls + (if g.mbox_configured = 1 then 1 else 0),
               disableCalls := g.disableCalls + 1 } ∧
    (omap_mbox_fini g m).2.ops = m.ops := by
  unfold omap_mbox_fini
  by_cases hc : g.mbox_configured - 1 = 0
  · have hone : g.mbox_configured = 1 := by omega
    by_cases hm : m.use_count - 1 = 0 <;> simp [h, hc, hone, hm]
  · have hone : ¬ g.mbox_configured = 1 := by omega
    by_cases hm : m.use_count - 1 = 0 <;> simp [h, hc, hone, hm]

theorem goodOps_update (f : Nat → MboxCh) (i : Nat) (m2 : MboxCh)
    (hg : ∀ j, goodOps (f j).ops) (hops : m2.ops = (f i).ops) :
    ∀ j, goodOps ((Function.update f i m2) j).ops := by
  intro j
  by_cases h : j = i
  · subst h
    rw [Function.update_same, hops]
    exact hg j
  · rw [Function.update_noteq h]
    exact hg j

theorem opensRun_g (cap : Nat) :
    ∀ (l : List Nat) (s : Sys),
    (∀ i, goodOps (s.chans i).ops) → 0 ≤ s.g.mbox_configured →
    ((lifeRun cap s (l.map LifeEv.opn)).g.mbox_configured =
        s.g.mbox_configured + (l.length : Int) ∧
     (lifeRun cap s (l.map LifeEv.opn)).g.startupCalls =
        s.g.startupCalls +
          (if s.g.mbox_configured = 0 ∧ l ≠ [] then 1 else 0) ∧
     (lifeRun cap s (l.map LifeEv.opn)).g.shutdownCalls =
        s.g.shutdownCalls ∧
     (∀ i, goodOps ((lifeRun cap s (l.map LifeEv.opn)).chans i).ops))
  | [], s, hg, hc => by
    refine ⟨by simp [lifeRun], by simp [lifeRun], by simp [lifeRun], ?_⟩
    simpa [lifeRun] using hg
  | i :: rest, s, hg, hc => by
    have hgood := hg i
    obtain ⟨hG, hOps, _⟩ :=
      startup_good cap s.g (s.chans i) hgood.1 hgood.2.1
    have hstep : lifeRun cap s ((i :: rest).map LifeEv.opn) =
        lifeRun cap (lifeStep cap s (LifeEv.opn i)) (rest.map LifeEv.opn) := by
      simp [lifeRun]
    have hg2 : ∀ j, goodOps ((lifeStep cap s (LifeEv.opn i)).chans j).ops :=
      goodOps_update s.chans i _ hg hOps
    have hGs : (lifeStep cap s (LifeEv.opn i)).g =
        { s.g with enableCalls := s.g.enableCalls + 1,
                   mbox_configured := s.g.mbox_configured + 1,
                   startupCalls := s.g.startupCalls +
                     (if s.g.mbox_configured = 0 then 1 else 0) } := hG
    have hc2 : 0 ≤ (lifeStep cap s (LifeEv.opn i)).g.mbox_configured := by
      rw [hGs]
      dsimp only
      omega
    obtain ⟨ih1, ih2, ih3, ih4⟩ :=
      opensRun_g cap rest (lifeStep cap s (LifeEv.opn i)) hg2 hc2
    rw [hGs] at ih1 ih2 ih3
    dsimp only at ih1 ih2 ih3
    rw [hstep]
    refine ⟨?_, ?_, ?_, ih4⟩
    · rw [ih1]
      simp only [List.length_cons]
      push_cast
      omega
    · rw [ih2]
      have hne2 : ¬ (s.g.mbox_configured + 1 = 0 ∧ rest ≠ []) := by
        rintro ⟨hx, _⟩
        omega
      by_cases h0 : s.g.mbox_configured = 0 <;> simp [h0, hne2]
    · exact ih3
  termination_by l => l.length

theorem closesRun_g (cap : Nat) :
    ∀ (l : List Nat) (s : Sys),
    (∀ i, goodOps (s.chans i).ops) →
    ((lifeRun cap s (l.map LifeEv.cls)).g.mbox_configured =
        s.g.mbox_configured - (l.length : Int) ∧
     (lifeRun cap s (l.map LifeEv.cls)).g.shutdownCalls =
        s.g.shutdownCalls +
          (if 1 ≤ s.g.mbox_configured ∧ s.g.mbox_configured ≤ (l.length : Int)
           then 1 else 0) ∧
     (lifeRun cap s (l.map LifeEv.cls)).g.startupCalls = s.g.startupCalls)
  | [], s, hg => by
    refine ⟨by simp [lifeRun], ?_, by simp [lifeRun]⟩
    simp only [lifeRun, List.map_nil, List.foldl_nil, List.length_nil,
      Nat.cast_zero]
    split_ifs with h
    · omega
    · omega
  | i :: rest, s, hg => by
    have hgood := hg i
    obtain ⟨hG, hOps⟩ := fini_good s.g (s.chans i) hgood.2.2
    have hstep : lifeRun cap s ((i :: rest).map LifeEv.cls) =
        lifeRun cap (lifeStep cap s (LifeEv.cls i)) (rest.map LifeEv.cls) := by
      simp [lifeRun]
    have hg2 : ∀ j, goodOps ((lifeStep cap s (LifeEv.cls i)).chans j).ops :=
      goodOps_update s.chans i _ hg hOps
    obtain ⟨ih1, ih2, ih3⟩ :=
      closesRun_g cap rest (lifeStep cap s (LifeEv.cls i)) hg2
    have hGs : (lifeStep cap s (LifeEv.cls i)).g =
        { s.g with mbox_configured := s.g.mbox_configured - 1,
                   shutdownCalls := s.g.shutdownCalls +
                     (if s.g.mbox_configured = 1 then 1 else 0),
                   disableCalls := s.g.disableCalls + 1 } := hG
    rw [hGs] at ih1 ih2 ih3
    dsimp only at ih1 ih2 ih3
    rw [hstep]
    refine ⟨?_, ?_, ?_⟩
    · rw [ih1]
      simp only [List.length_cons]
      push_cast
      omega
    · rw [ih2]
      simp only [List.length_cons]
      push_cast
      split_ifs <;> omega
    · exact ih3
  termination_by l => l.length

/-- C1: with working hardware callbacks, the `startup` callback runs
exactly on an open that moves the process-wide `mbox_configured` counter
from 0 to 1, the `shutdown` callback exactly on a close that returns it
to 0, and over any trace of N opens (of arbitrary channels, any
interleaving of channel indices, independent of per-channel `use_count`)
followed by N matching closes from the initial state, each callback runs
exactly once and the counter returns to 0. -/
theorem activation_startup_shutdown_once :
    (∀ (cap : Nat) (g : GlobalState) (m : MboxCh),
      goodOps m.ops →
      (omap_mbox_startup cap true true true g m).1.startupCalls =
        g.startupCalls + (if g.mbox_configured = 0 then 1 else 0) ∧
      (omap_mbox_startup cap true true true g m).1.mbox_configured =
        g.mbox_configured + 1) ∧
    (∀ (g : GlobalState) (m : MboxCh),
      m.ops.has_shutdown = true →
      (omap_mbox_fini g m).1.shutdownCalls =
        g.shutdownCalls + (if g.mbox_configured = 1 then 1 else 0) ∧
      (omap_mbox_fini g m).1.mbox_configured = g.mbox_configured - 1) ∧
    (∀ (cap : Nat) (chans : Nat → MboxCh) (opens closes : List Nat),
      (∀ i, goodOps (chans i).ops) →
      opens.length = closes.length → opens ≠ [] →
      (lifeRun cap ⟨⟨0, 0, 0, 0, 0⟩, chans⟩
          (opens.map LifeEv.opn ++ closes.map LifeEv.cls)).g.startupCalls = 1 ∧
      (lifeRun cap ⟨⟨0, 0, 0, 0, 0⟩, chans⟩
          (opens.map LifeEv.opn ++ closes.map LifeEv.cls)).g.shutdownCalls = 1 ∧
      (lifeRun cap ⟨⟨0, 0, 0, 0, 0⟩, chans⟩
          (opens.map LifeEv.opn ++ closes.map LifeEv.cls)).g.mbox_configured = 0) := by
  refine ⟨?_, ?_, ?_⟩
  · intro cap g m hgood
    obtain ⟨hG, _, _⟩ := startup_good cap g m hgood.1 hgood.2.1
    rw [hG]
    exact ⟨rfl, rfl⟩
  · intro g m hsd
    obtain ⟨hG, _⟩ := fini_good g m hsd
    rw [hG]
    exact ⟨rfl, rfl⟩
  · intro cap chans opens closes hg hlen hne
    have hsplit : lifeRun cap ⟨⟨0, 0, 0, 0, 0⟩, chans⟩
        (opens.map LifeEv.opn ++ closes.map LifeEv.cls) =
        lifeRun cap
          (lifeRun cap ⟨⟨0, 0, 0, 0, 0⟩, chans⟩ (opens.map LifeEv.opn))
          (closes.map LifeEv.cls) := by
      simp [lifeRun]
    obtain ⟨ho1, ho2, ho3, ho4⟩ :=
      opensRun_g cap opens ⟨⟨0, 0, 0, 0, 0⟩, chans⟩ hg (by simp)
    obtain ⟨hc1, hc2, hc3⟩ :=
      closesRun_g cap closes
        (lifeRun cap ⟨⟨0, 0, 0, 0, 0⟩, chans⟩ (opens.map LifeEv.opn)) ho4
    have hposlen : 1 ≤ (opens.length : Int) := by
      have : opens.length ≠ 0 := by
        simpa [List.length_eq_zero] using hne
      omega
    have hcast : (opens.length : Int) = (closes.length : Int) := by
      rw [hlen]
    rw [hsplit]
    dsimp only at ho1 ho2 ho3
    refine ⟨?_, ?_, ?_⟩
    · rw [hc3, ho2]
      simp [hne]
    · rw [hc2, ho1, ho3]
      rw [if_pos ⟨by omega, by omega⟩]
    · rw [hc1, ho1]
      omega

/-- A channel whose hardware callbacks all exist and succeed. -/
def goodCh : MboxCh :=
  ⟨"good", ⟨true, 0, true, true, true, MboxType.type1⟩, 0, none, none⟩

/-- Witness for `activation_startup_shutdown_once`: one open followed by
one close of one channel. -/
theorem activation_startup_shutdown_once_witness :
    (lifeRun 16 ⟨⟨0, 0, 0, 0, 0⟩, fun _ => goodCh⟩
        (([0] : List Nat).map LifeEv.opn ++
         ([0] : List Nat).map LifeEv.cls)).g.startupCalls = 1 ∧
    (lifeRun 16 ⟨⟨0, 0, 0, 0, 0⟩, fun _ => goodCh⟩
        (([0] : List Nat).map LifeEv.opn ++
         ([0] : List Nat).map LifeEv.cls)).g.shutdownCalls = 1 ∧
    (lifeRun 16 ⟨⟨0, 0, 0, 0, 0⟩, fun _ => goodCh⟩
        (([0] : List Nat).map LifeEv.opn ++
         ([0] : List Nat).map LifeEv.cls)).g.mbox_configured = 0 :=
  activation_startup_shutdown_once.2.2 16 (fun _ => goodCh) [0] [0]
    (fun _ => ⟨rfl, rfl, rfl⟩) rfl (by simp)

/-- A channel whose hardware ops lack the `startup` callback. -/
def noStartupCh : MboxCh :=
  ⟨"mbox0", ⟨false, 0, true, true, true, MboxType.type1⟩, 0, none, none⟩

/-- C2 (code bug): on the very first activation of a channel whose ops
lack the `startup` callback, `omap_mbox_startup` takes the `fail_startup`
path — hardware deactivated (one disable call), `use_count` untouched, no
queues allocated, `startup` never invoked — yet returns the never-assigned
`ret = 0`, so `omap_mbox_get` reports a successful open and hands back the
unopened channel instead of failing with `-ENODEV` (DeviceError).  The
final global state also shows the leaked `mbox_configured = 1`. -/
theorem open_succeeds_despite_missing_startup :
    (omap_mbox_get 16 true true true (some [noStartupCh]) ⟨0, 0, 0, 0, 0⟩
        "mbox0" false).1 = GetResult.ok noStartupCh ∧
    noStartupCh.use_count = 0 ∧
    noStartupCh.txq = none ∧ noStartupCh.rxq = none ∧
    (omap_mbox_get 16 true true true (some [noStartupCh]) ⟨0, 0, 0, 0, 0⟩
        "mbox0" false).2.1 = ⟨1, 0, 0, 1, 1⟩ := by
  refine ⟨by decide, rfl, rfl, rfl, by decide⟩

/-- C10: `omap_mbox_get` on a null registry — never populated, or cleared
by `omap_mbox_unregister` — returns `-EINVAL` (distinct from `-ENOENT` /
NotFound) and leaves the global state untouched: no hardware enable, no
startup call, no counter change, no observer registration. -/
theorem get_null_registry_einval (cap : Nat) (aTx aRx aIrq : Bool)
    (g : GlobalState) (name : String) (nb : Bool)
    (reg : Option (List MboxCh)) :
    omap_mbox_get cap aTx aRx aIrq none g name nb =
      (GetResult.err (-22), g, false) ∧
    omap_mbox_get cap aTx aRx aIrq (omap_mbox_unregister reg).1 g name nb =
      (GetResult.err (-22), g, false) ∧
    GetResult.err (-22) ≠ GetResult.err (-2) := by
  refine ⟨rfl, ?_, by decide⟩
  cases reg <;> rfl

/-- Witness for `get_null_registry_einval` at a concrete state. -/
theorem get_null_registry_einval_witness :
    omap_mbox_get 16 true true true none ⟨0, 0, 0, 0, 0⟩ "c0" false =
      (GetResult.err (-22), ⟨0, 0, 0, 0, 0⟩, false) :=
  (get_null_registry_einval 16 true true true ⟨0, 0, 0, 0, 0⟩ "c0" false
    (some [])).1

/-- Model of `omap_mbox_save_ctx`: returns `-EINVAL` if the `save_ctx` callback is
absent, otherwise invokes it — with no check of `use_count`.  The second
component records whether the hook was invoked. -/
def omap_mbox_save_ctx (m : MboxCh) : Int × Bool :=
  if m.ops.has_save_ctx = false then (-22, false)
  else (0, true)

/-- Model of `omap_mbox_restore_ctx`: skips a channel with `use_count = 0`
(returning 0), returns `-EINVAL` if the `restore_ctx` callback is absent,
otherwise invokes it. -/
def omap_mbox_restore_ctx (m : MboxCh) : Int × Bool :=
  if m.use_count = 0 then (0, false)
  else if m.ops.has_restore_ctx = false then (-22, false)
  else (0, true)

/-- Model of `device_for_each_child`: applies `f` to each child in order, stopping
at the first non-zero return.  Yields the final return value and, for each
child visited, whether its hook was invoked. -/
def device_for_each_child (f : MboxCh → Int × Bool) :
    List MboxCh → Int × List (MboxCh × Bool)
  | [] => (0, [])
  | c :: rest =>
    let r := f c
    if r.1 ≠ 0 then (r.1, [(c, r.2)])
    else
      let r2 := device_for_each_child f rest
      (r2.1, (c, r.2) :: r2.2)

/-- Model of `mbox_runtime_suspend` (ignoring the pm_qos update): context-save over
all children. -/
def mbox_runtime_suspend (children : List MboxCh) :
    Int × List (MboxCh × Bool) :=
  device_for_each_child omap_mbox_save_ctx children

/-- Model of `mbox_runtime_resume` (ignoring the pm_qos update): context-restore
over all children. -/
def mbox_runtime_resume (children : List MboxCh) :
    Int × List (MboxCh × Bool) :=
  device_for_each_child omap_mbox_restore_ctx children

/-- C9 counterexample: an idle channel (`use_count = 0`) whose ops provide
`save_ctx`.  On suspend its context-save hook IS invoked, refuting the
claim that suspend invokes context-save exactly over the channels with
`use_count > 0` (skipping idle ones). -/
theorem suspend_saves_unused_channel_cex :
    goodCh.use_count = 0 ∧
    mbox_runtime_suspend [goodCh] = (0, [(goodCh, true)]) := by
  constructor
  · rfl
  · rfl

/-- C9 (amended): when every child provides both context hooks, suspend
invokes context-save over ALL children regardless of `use_count`, while
resume invokes context-restore exactly over the children with
`use_count > 0`, skipping a `use_count = 0` channel without error. -/
theorem suspend_resume_ctx_amended (children : List MboxCh)
    (hs : ∀ m ∈ children, m.ops.has_save_ctx = true)
    (hr : ∀ m ∈ children, m.ops.has_restore_ctx = true) :
    mbox_runtime_suspend children = (0, children.map fun m => (m, true)) ∧
    mbox_runtime_resume children =
      (0, children.map fun m => (m, decide (0 < m.use_count))) := by
  induction children with
  | nil => exact ⟨rfl, rfl⟩
  | cons c rest ih =>
    have hsc : c.ops.has_save_ctx = true := hs c (List.mem_cons_self c rest)
    have hrc : c.ops.has_restore_ctx = true := hr c (List.mem_cons_self c rest)
    obtain ⟨ih1, ih2⟩ :=
      ih (fun m hm => hs m (List.mem_cons_of_mem c hm))
        (fun m hm => hr m (List.mem_cons_of_mem c hm))
    constructor
    · show device_for_each_child omap_mbox_save_ctx (c :: rest) = _
      simp only [device_for_each_child, omap_mbox_save_ctx, hsc]
      simp only [mbox_runtime_suspend] at ih1
      simp [ih1]
    · show device_for_each_child omap_mbox_restore_ctx (c :: rest) = _
      simp only [mbox_runtime_resume] at ih2
      by_cases hu : c.use_count = 0
      · simp only [device_for_each_child, omap_mbox_restore_ctx, hu]
        simp [ih2, hu]
      · simp only [device_for_each_child, omap_mbox_restore_ctx, hu]
        simp [ih2, hrc, Nat.pos_of_ne_zero hu]

/-- Witness for `suspend_resume_ctx_amended`: one open channel and one
idle channel. -/
theorem suspend_resume_ctx_amended_witness :
    mbox_runtime_suspend
        [{ goodCh with use_count := 1 }, goodCh] =
      (0, [({ goodCh with use_count := 1 }, true), (goodCh, true)]) ∧
    mbox_runtime_resume
        [{ goodCh with use_count := 1 }, goodCh] =
      (0, [({ goodCh with use_count := 1 }, true), (goodCh, false)]) := by
  have h := suspend_resume_ctx_amended
      [{ goodCh with use_count := 1 }, goodCh]
      (by intro m hm; fin_cases hm <;> rfl)
      (by intro m hm; fin_cases hm <;> rfl)
  obtain ⟨h1, h2⟩ := h
  refine ⟨by rw [h1]; rfl, by rw [h2]; rfl⟩

/-- An event in the execution trace of a queue path, for the locking
discipline: queue-lock acquire/release, hardware accesses, queue
enqueue/dequeue, the `full`-flag check, and observer dispatch. -/
inductive Ev where
  | lockAcq
  | lockRel
  | hwPoll
  | hwWrite
  | hwRead
  | enq
  | deq
  | flagCheck
  | dispatch
  deriving DecidableEq, Repr

/-- Event trace of `omap_mbox_msg_send`: `spin_lock_bh` is taken first
and released last, so the avail check, the bounded hardware poll, the
direct hardware write, and the enqueue all happen under the transmit
queue lock. -/
def sendTrace (ty : MboxType) (txq : Kfifo) (hw : HwFifo) : List Ev :=
  [Ev.lockAcq] ++
  (if kfifo_avail txq < msgSize then ([] : List Ev)
   else if kfifo_is_empty txq = true ∧ __mbox_poll_for_space ty hw = 0 then
     [Ev.hwPoll, Ev.hwWrite]
   else if kfifo_is_empty txq = true then [Ev.hwPoll, Ev.enq]
   else [Ev.enq]) ++ [Ev.lockRel]

/-- Event trace of one `mbox_rx_work` run: per message, `kfifo_out` and
the notifier dispatch happen outside the lock; only the `full`-flag check
is inside `spin_lock_irq`/`spin_unlock_irq`. -/
def rxWorkTrace (rxq : Kfifo) : List Ev :=
  rxq.msgs.flatMap fun _ =>
    [Ev.deq, Ev.dispatch, Ev.lockAcq, Ev.flagCheck, Ev.lockRel]

/-- Checks a trace against the claimed locking discipline: scanning with
the current lock depth `d`, every hardware access (poll, FIFO read or
write) and every observer dispatch must happen at lock depth 0. -/
def scanLockDiscipline : List Ev → Nat → Bool
  | [], _ => true
  | Ev.lockAcq :: rest, d => scanLockDiscipline rest (d + 1)
  | Ev.lockRel :: rest, d => scanLockDiscipline rest (d - 1)
  | Ev.hwPoll :: rest, d => (d == 0) && scanLockDiscipline rest d
  | Ev.hwWrite :: rest, d => (d == 0) && scanLockDiscipline rest d
  | Ev.hwRead :: rest, d => (d == 0) && scanLockDiscipline rest d
  | Ev.dispatch :: rest, d => (d == 0) && scanLockDiscipline rest d
  | Ev.enq :: rest, d => scanLockDiscipline rest d
  | Ev.deq :: rest, d => scanLockDiscipline rest d
  | Ev.flagCheck :: rest, d => scanLockDiscipline rest d

/-- C8 counterexample: on the fast path of `omap_mbox_msg_send` (empty
software queue, hardware space available) the transmit-queue lock is held
across the bounded hardware-space poll and the hardware FIFO write, so
the claimed discipline fails on this operation's trace. -/
theorem send_holds_lock_across_hw_cex :
    sendTrace MboxType.type1 ⟨16, []⟩ ⟨4, []⟩ =
      [Ev.lockAcq, Ev.hwPoll, Ev.hwWrite, Ev.lockRel] ∧
    scanLockDiscipline (sendTrace MboxType.type1 ⟨16, []⟩ ⟨4, []⟩) 0 = false := by
  constructor
  · rfl
  · rfl

/-- C8 (amended): in the deferred receive task the receive-queue lock is
held only around the `full`-flag check — never across a dequeue, an
observer dispatch, or any hardware access — but in `send` the transmit
queue lock IS held across the whole admission path, including the bounded
hardware-space poll and the direct hardware FIFO write on the fast path. -/
theorem lock_discipline_amended :
    (∀ rxq : Kfifo, scanLockDiscipline (rxWorkTrace rxq) 0 = true) ∧
    (∀ (ty : MboxType) (txq : Kfifo) (hw : HwFifo),
      msgSize ≤ txq.capacity → kfifo_is_empty txq = true →
      mbox_fifo_full hw = false →
      scanLockDiscipline (sendTrace ty txq hw) 0 = false) := by
  constructor
  · intro rxq
    show scanLockDiscipline
      (rxq.msgs.flatMap fun _ =>
        [Ev.deq, Ev.dispatch, Ev.lockAcq, Ev.flagCheck, Ev.lockRel]) 0 = true
    have hb : ∀ t : List Ev,
        scanLockDiscipline
          ([Ev.deq, Ev.dispatch, Ev.lockAcq, Ev.flagCheck, Ev.lockRel] ++ t) 0 =
        scanLockDiscipline t 0 := by
      intro t
      simp [scanLockDiscipline]
    induction rxq.msgs with
    | nil => rfl
    | cons m rest ih =>
      rw [List.flatMap_cons, hb]
      exact ih
  · intro ty txq hw hcap hempty hfull
    have hpoll : __mbox_poll_for_space ty hw = 0 := by
      simp [poll_for_space_eq, hfull]
    have hmsgs : txq.msgs = [] := by
      simpa [kfifo_is_empty] using hempty
    have hav : ¬ kfifo_avail txq < msgSize := by
      simp only [kfifo_avail, kfifo_len, hmsgs, List.length_nil, Nat.mul_zero,
        Nat.sub_zero]
      omega
    unfold sendTrace
    rw [if_neg hav, if_pos ⟨hempty, hpoll⟩]
    rfl

/-- Witness for `lock_discipline_amended` at concrete states. -/
theorem lock_discipline_amended_witness :
    scanLockDiscipline (rxWorkTrace ⟨8, [3, 4]⟩) 0 = true ∧
    scanLockDiscipline (sendTrace MboxType.type2 ⟨8, []⟩ ⟨2, [5]⟩) 0 = false :=
  ⟨lock_discipline_amended.1 ⟨8, [3, 4]⟩,
   lock_discipline_amended.2 MboxType.type2 ⟨8, []⟩ ⟨2, [5]⟩
     (by decide) (by decide) (by decide)⟩

end OmapMailbox
